import Mathlib

/-!
Verification development for the MTG Top 8 Calculator
(`script.js`, `day2.js`, and the round-tracker variant of the Top 8 page).

The JavaScript sources are embedded shallowly: pure functions become Lean
functions over `ℕ`/`ℤ`/`ℚ` (the scripts only ever apply them to small
non-negative integers, and the OMW% estimator's floating-point arithmetic is
modelled over the rationals), `null`-able round results become
`Option RoundResult`, the `-1` sentinel used by the linear searches is kept
as an integer result, and the round-tracker state array is a
`List (Option RoundResult)`.
-/

/-- A single played round result: the `'W'`/`'L'`/`'D'` strings of the
round tracker. An unplayed round (`null` in the source) is `Option.none`
around this type. -/
inductive RoundResult where
  | win
  | loss
  | draw
deriving DecidableEq, Repr

/-- A remaining-rounds scenario, as pushed by `generateScenarios` /
`generateRemainingScenarios`. -/
structure Scenario where
  extraWins : ℕ
  extraLosses : ℕ
  extraDraws : ℕ
deriving DecidableEq, Repr

/-- `getMatchPoints(wins, draws) = wins * 3 + draws * 1` (identical in all
three scripts). -/
def getMatchPoints (wins draws : ℕ) : ℕ :=
  wins * 3 + draws * 1

/-- The player-count bucket table assigning `thresholdPoints` inside
`estimateTop8Probability` (the `numPlayers <= 8` trivial case is handled by
the caller before this table is consulted). The final bucket computes
`(totalRounds - 2) * 3` over the integers, as JavaScript does. -/
def thresholdPointsFor (numPlayers totalRounds : ℕ) : ℤ :=
  if numPlayers ≤ 16 then 9
  else if numPlayers ≤ 32 then 12
  else if numPlayers ≤ 64 then 15
  else if numPlayers ≤ 128 then 16
  else if numPlayers ≤ 256 then 18
  else if numPlayers ≤ 512 then 21
  else if numPlayers ≤ 1024 then 24
  else ((totalRounds : ℤ) - 2) * 3

/-- The `baseProb` table of `estimateTop8Probability`, keyed on
`diff = points - thresholdPoints`. -/
def baseProbFor (diff : ℤ) : ℤ :=
  if 6 ≤ diff then 100
  else if 3 ≤ diff then 98
  else if 1 ≤ diff then 92
  else if diff = 0 then 75
  else if diff = -1 then 50
  else if diff = -2 then 25
  else if diff = -3 then 10
  else if diff = -4 then 3
  else if diff = -5 then 1
  else 0

/-- The `adjustment` value computed inside the tiebreaker-sensitive block of
`estimateTop8Probability` (round-tracker variant): OMW% bands `> 0.55`,
`< 0.40`, `> 0.50`, `< 0.45`, else no change, each with per-diff values for
`diff = 0`, `-1`, and (the only other value reaching this code) `-2`. -/
def omwAdjustmentFor (omw : ℚ) (diff : ℤ) : ℤ :=
  if 11/20 < omw then
    (if diff = 0 then 10 else if diff = -1 then 10 else 5)
  else if omw < 2/5 then
    (if diff = 0 then -15 else if diff = -1 then -10 else -8)
  else if 1/2 < omw then
    (if diff = 0 then 5 else if diff = -1 then 4 else 2)
  else if omw < 9/20 then
    (if diff = 0 then -8 else if diff = -1 then -5 else -3)
  else 0

/-- The probability returned for a given `diff` and optional OMW estimate:
`baseProb`, adjusted and clamped to `[0, 100]` when an OMW estimate is
present (`omwEstimate !== undefined && omwEstimate !== null`) and
`-2 ≤ diff ≤ 0` (lines 146–188 of the round-tracker script). -/
def adjustedProbFor : Option ℚ → ℤ → ℤ
  | none, diff => baseProbFor diff
  | some omw, diff =>
    if -2 ≤ diff ∧ diff ≤ 0 then
      max 0 (min 100 (baseProbFor diff + omwAdjustmentFor omw diff))
    else baseProbFor diff

/-- `estimateTop8Probability(wins, losses, draws, totalRounds, numPlayers,
omwEstimate)` from the round-tracker variant of the Top 8 page.
`losses` is accepted but unused, as in the source. An absent OMW estimate
(`undefined`/`null`) is `Option.none`. -/
def estimateTop8Probability (wins losses draws totalRounds numPlayers : ℕ)
    (omwEstimate : Option ℚ) : ℤ :=
  let _ := losses
  let points := getMatchPoints wins draws
  if numPlayers ≤ 8 then 100
  else adjustedProbFor omwEstimate ((points : ℤ) - thresholdPointsFor numPlayers totalRounds)

/-- `estimateTop8Probability(wins, losses, draws, totalRounds, numPlayers)`
from `script.js` (the copy without the OMW parameter), embedded separately
with its early-return chain written out, so that the two copies can be
compared. -/
def estimateTop8ProbabilityScript (wins losses draws totalRounds numPlayers : ℕ) : ℤ :=
  let _ := losses
  let points : ℤ := getMatchPoints wins draws
  if numPlayers ≤ 8 then 100
  else
    let thresholdPoints : ℤ :=
      if numPlayers ≤ 16 then 9
      else if numPlayers ≤ 32 then 12
      else if numPlayers ≤ 64 then 15
      else if numPlayers ≤ 128 then 16
      else if numPlayers ≤ 256 then 18
      else if numPlayers ≤ 512 then 21
      else if numPlayers ≤ 1024 then 24
      else ((totalRounds : ℤ) - 2) * 3
    let diff := points - thresholdPoints
    if 6 ≤ diff then 100
    else if 3 ≤ diff then 98
    else if 1 ≤ diff then 92
    else if diff = 0 then 75
    else if diff = -1 then 50
    else if diff = -2 then 25
    else if diff = -3 then 10
    else if diff = -4 then 3
    else if diff = -5 then 1
    else 0

/-- `generateScenarios(remaining)` from `day2.js` (line-for-line identical
to `generateRemainingScenarios` in the Top 8 scripts). The source's
descending loops `for w = remaining downTo 0` / `for d = remaining - w
downTo 0; l = remaining - w - d` are indexed here by `i` (so
`w = remaining - i`, and the inner bound `remaining - w` is `i`) and by `j`
(so `d = i - j` and `l = remaining - w - d = j`). -/
def generateScenarios (remaining : ℕ) : List Scenario :=
  (List.range (remaining + 1)).flatMap fun i =>
    (List.range (i + 1)).map fun j =>
      ⟨remaining - i, j, i - j⟩

/-- The enumeration order contract of `generateScenarios`: `extraWins`
strictly descending, and within equal `extraWins`, `extraDraws` strictly
descending (wins-heavy first; within equal wins, draws-heavy before
losses-heavy). -/
def scenLexGt (a b : Scenario) : Prop :=
  b.extraWins < a.extraWins ∨ (a.extraWins = b.extraWins ∧ b.extraDraws < a.extraDraws)

/-- The ascending linear-search loop pattern shared by `day2.js` and the
strategy section of the Top 8 scripts: try `testW` from the given start
while at most `left - 1` slots remain, returning the first `testW`
satisfying `p`, or the `-1` sentinel when the loop runs out. -/
def searchFrom (p : ℕ → Bool) : ℕ → ℕ → ℤ
  | _, 0 => -1
  | testW, left + 1 => if p testW then (testW : ℤ) else searchFrom p (testW + 1) left

/-- The `minWinsNeeded` computation of `day2.js` `calculate()`
(lines 180–192): `-1` when `alreadyIn` (the loop is guarded by
`if (!alreadyIn)`), otherwise the first `testW` in `0..remaining` with
`currentPoints + testW*3 + (remaining-testW)*1 >= threshold`. -/
def day2MinWinsNeeded (currentPoints threshold remaining : ℕ) : ℤ :=
  if threshold ≤ currentPoints then -1
  else searchFrom
    (fun testW => decide (threshold ≤ currentPoints + testW * 3 + (remaining - testW) * 1))
    0 (remaining + 1)

/-- The five mutually exclusive verdict categories produced by the strategy
section of the Top 8 `calculate()` (one per branch of the
`strategyVerdict` if/else chain). -/
inductive StrategyVerdict where
  | safeToDraw
  | likelySafe
  | mustWinAtLeast (n : ℤ)
  | eliminationLikely
  | mustWinAll
deriving DecidableEq, Repr

/-- `drawAllProb`: probability after drawing all remaining rounds
(`calculate()`, strategy section). -/
def drawAllProbFor (cw cl cd totalRounds numPlayers : ℕ) (omw : Option ℚ)
    (remaining : ℕ) : ℤ :=
  estimateTop8Probability cw cl (cd + remaining) totalRounds numPlayers omw

/-- `winAllProb`: probability after winning all remaining rounds. -/
def winAllProbFor (cw cl cd totalRounds numPlayers : ℕ) (omw : Option ℚ)
    (remaining : ℕ) : ℤ :=
  estimateTop8Probability (cw + remaining) cl cd totalRounds numPlayers omw

/-- `minWinsNeeded` of the Top 8 strategy section: first `testW` in
`0..remaining` whose win-`testW`-draw-the-rest probability reaches 75,
else `-1`. -/
def minWinsNeededTop8 (cw cl cd totalRounds numPlayers : ℕ) (omw : Option ℚ)
    (remaining : ℕ) : ℤ :=
  searchFrom
    (fun testW => decide (75 ≤ estimateTop8Probability (cw + testW) cl
      (cd + (remaining - testW)) totalRounds numPlayers omw))
    0 (remaining + 1)

/-- The verdict cascade of the Top 8 strategy section (round-tracker script
lines 497–518), all three inputs computed with the same OMW estimate. -/
def strategyVerdictFor (cw cl cd totalRounds numPlayers : ℕ) (omw : Option ℚ)
    (remaining : ℕ) : StrategyVerdict :=
  let drawAllProb := drawAllProbFor cw cl cd totalRounds numPlayers omw remaining
  let winAllProb := winAllProbFor cw cl cd totalRounds numPlayers omw remaining
  let minWinsNeeded := minWinsNeededTop8 cw cl cd totalRounds numPlayers omw remaining
  if 90 ≤ drawAllProb then .safeToDraw
  else if 60 ≤ drawAllProb then .likelySafe
  else if 0 < minWinsNeeded ∧ minWinsNeeded ≤ (remaining : ℤ) then
    .mustWinAtLeast minWinsNeeded
  else if winAllProb < 25 then .eliminationLikely
  else .mustWinAll

/-- The per-round clamp of `estimateOMW`:
`Math.max(0.33, Math.min(1, opponentMW))`. -/
def clampOMW (x : ℚ) : ℚ := max (33/100) (min 1 x)

/-- The bracket walk of `estimateOMW`: skips `null` rounds, and for each
played round pushes the clamped opponent estimate computed from
`bracketStrength = 0.5 + (cumWins - cumLosses) / (2 * totalRounds)`
(`- 0.04` after a win, `+ 0.04` after a loss, unchanged on a draw),
advancing the counters exactly as the source loop does. -/
def opponentMWs (totalRounds : ℕ) : ℤ → ℤ → List (Option RoundResult) → List ℚ
  | _, _, [] => []
  | cumWins, cumLosses, none :: rest => opponentMWs totalRounds cumWins cumLosses rest
  | cumWins, cumLosses, some r :: rest =>
    let bracketStrength : ℚ :=
      1/2 + ((cumWins : ℚ) - (cumLosses : ℚ)) / (2 * (totalRounds : ℚ))
    match r with
    | .win => clampOMW (bracketStrength - 1/25) ::
        opponentMWs totalRounds (cumWins + 1) cumLosses rest
    | .loss => clampOMW (bracketStrength + 1/25) ::
        opponentMWs totalRounds cumWins (cumLosses + 1) rest
    | .draw => clampOMW bracketStrength ::
        opponentMWs totalRounds cumWins cumLosses rest

/-- `estimateOMW(results, totalRounds)`: `null` on an empty or all-`null`
sequence, otherwise the arithmetic mean of the per-round clamped opponent
estimates. -/
def estimateOMW (results : List (Option RoundResult)) (totalRounds : ℕ) : Option ℚ :=
  if results.isEmpty then none
  else if (results.filter (fun r => r.isSome)).isEmpty then none
  else
    let mws := opponentMWs totalRounds 0 0 results
    some (mws.sum / (mws.length : ℚ))

/-- The round-tracker invariant: played results form a contiguous block at
the front, with `null` entries only as a trailing suffix. -/
def contiguousPlayed : List (Option RoundResult) → Bool
  | [] => true
  | some _ :: rest => contiguousPlayed rest
  | none :: rest => rest.all (fun r => r.isNone)

/-- The sequential-enable check of `buildRoundTracker` (line 313):
round `r`'s buttons act only when
`r === 0 || roundResults[r-1] !== null || roundResults[r] !== null`. -/
def roundEnabled (rs : List (Option RoundResult)) (r : ℕ) : Bool :=
  r == 0 || (rs.getD (r - 1) none).isSome || (rs.getD r none).isSome

/-- `onRoundBtnClick`: `roundResults[round] = result`. -/
def setRoundResult (rs : List (Option RoundResult)) (r : ℕ) (result : RoundResult) :
    List (Option RoundResult) :=
  rs.set r (some result)

/-- `onRoundClear`: `for i = round .. length-1, roundResults[i] = null`. -/
def clearRoundsFrom : List (Option RoundResult) → ℕ → List (Option RoundResult)
  | [], _ => []
  | _ :: rest, 0 => none :: clearRoundsFrom rest 0
  | a :: rest, r + 1 => a :: clearRoundsFrom rest r

/-! ### C1, C10, C3: the Top 8 estimator tables -/

/-- C1: with no OMW estimate, `estimateTop8Probability` is exactly the
composition of the player-count threshold table with the diff table:
100 outright when `numPlayers ≤ 8` regardless of record, and otherwise the
fixed probability read off `diff = (wins*3 + draws) - thresholdPoints` where
`thresholdPoints` follows the `≤16 → 9, ≤32 → 12, ≤64 → 15, ≤128 → 16,
≤256 → 18, ≤512 → 21, ≤1024 → 24, else (totalRounds-2)*3` buckets. -/
theorem top8_noOmw_is_table_composition
    (wins losses draws totalRounds numPlayers : ℕ) :
    estimateTop8Probability wins losses draws totalRounds numPlayers none =
      if numPlayers ≤ 8 then 100
      else
        let thresholdPoints : ℤ :=
          if numPlayers ≤ 16 then 9
          else if numPlayers ≤ 32 then 12
          else if numPlayers ≤ 64 then 15
          else if numPlayers ≤ 128 then 16
          else if numPlayers ≤ 256 then 18
          else if numPlayers ≤ 512 then 21
          else if numPlayers ≤ 1024 then 24
          else ((totalRounds : ℤ) - 2) * 3
        let diff : ℤ := (wins * 3 + draws * 1 : ℕ) - thresholdPoints
        if 6 ≤ diff then 100
        else if 3 ≤ diff then 98
        else if 1 ≤ diff then 92
        else if diff = 0 then 75
        else if diff = -1 then 50
        else if diff = -2 then 25
        else if diff = -3 then 10
        else if diff = -4 then 3
        else if diff = -5 then 1
        else 0 := by
  rfl

/-- C10: the `estimateTop8Probability` copy in `script.js` and the copy in
the round-tracker script called with no OMW estimate agree on every input:
the two estimators have not drifted apart on the OMW-free path. -/
theorem script_top8_matches_tracker_top8
    (wins losses draws totalRounds numPlayers : ℕ) :
    estimateTop8ProbabilityScript wins losses draws totalRounds numPlayers =
      estimateTop8Probability wins losses draws totalRounds numPlayers none := by
  rfl

/-- C3: whenever `diff = (wins*3 + draws) - thresholdPoints` falls outside
`[-2, 0]`, supplying any OMW estimate whatsoever leaves
`estimateTop8Probability` unchanged: the tiebreaker adjustment never applies
outside the band. -/
theorem omw_adjustment_confined_to_band
    (wins losses draws totalRounds numPlayers : ℕ) (omw : ℚ)
    (h : (getMatchPoints wins draws : ℤ) - thresholdPointsFor numPlayers totalRounds < -2 ∨
         0 < (getMatchPoints wins draws : ℤ) - thresholdPointsFor numPlayers totalRounds) :
    estimateTop8Probability wins losses draws totalRounds numPlayers (some omw) =
      estimateTop8Probability wins losses draws totalRounds numPlayers none := by
  have hband : ¬(-2 ≤ (getMatchPoints wins draws : ℤ) -
      thresholdPointsFor numPlayers totalRounds ∧
      (getMatchPoints wins draws : ℤ) - thresholdPointsFor numPlayers totalRounds ≤ 0) := by
    rcases h with h | h <;> omega
  unfold estimateTop8Probability adjustedProbFor
  by_cases h8 : numPlayers ≤ 8
  · simp [h8]
  · simp only [h8, if_false]
    rw [if_neg hband]

/-- Witness for C3: at 5-0-0 in a 32-player, 5-round event, `diff = 3 > 0`,
and an extreme OMW estimate of 99 leaves the probability untouched. -/
theorem omw_adjustment_confined_to_band_witness :
    estimateTop8Probability 5 0 0 5 32 (some 99) =
      estimateTop8Probability 5 0 0 5 32 none :=
  omw_adjustment_confined_to_band 5 0 0 5 32 99 (by decide)

/-! ### C7: monotonicity of the Top 8 estimator in wins. Adding a win adds
3 points, hence raises `diff` by 3; we show the diff-to-probability map
`adjustedProbFor` is non-decreasing one unit step at a time, using interval
bounds on the OMW adjustment. -/

theorem baseProbFor_of_le_neg6 {d : ℤ} (h : d ≤ -6) : baseProbFor d = 0 := by
  have h6 : ¬6 ≤ d := by omega
  have h3 : ¬3 ≤ d := by omega
  have h1 : ¬1 ≤ d := by omega
  have e0 : ¬d = 0 := by omega
  have e1 : ¬d = -1 := by omega
  have e2 : ¬d = -2 := by omega
  have e3 : ¬d = -3 := by omega
  have e4 : ¬d = -4 := by omega
  have e5 : ¬d = -5 := by omega
  simp [baseProbFor, h6, h3, h1, e0, e1, e2, e3, e4, e5]

theorem baseProbFor_of_six_le {d : ℤ} (h : 6 ≤ d) : baseProbFor d = 100 := by
  unfold baseProbFor
  rw [if_pos h]

theorem baseProbFor_step (d : ℤ) : baseProbFor d ≤ baseProbFor (d + 1) := by
  rcases le_or_lt d (-7) with h | h
  · rw [baseProbFor_of_le_neg6 (by omega), baseProbFor_of_le_neg6 (by omega)]
  · rcases le_or_lt 6 d with h6 | h6
    · rw [baseProbFor_of_six_le h6, baseProbFor_of_six_le (by omega)]
    · interval_cases d <;> decide

theorem omwAdjustmentFor_neg2_mem (q : ℚ) :
    -8 ≤ omwAdjustmentFor q (-2) ∧ omwAdjustmentFor q (-2) ≤ 5 := by
  unfold omwAdjustmentFor
  norm_num
  split_ifs <;> omega

theorem omwAdjustmentFor_neg1_mem (q : ℚ) :
    -10 ≤ omwAdjustmentFor q (-1) ∧ omwAdjustmentFor q (-1) ≤ 10 := by
  unfold omwAdjustmentFor
  norm_num
  split_ifs <;> omega

theorem omwAdjustmentFor_zero_mem (q : ℚ) :
    -15 ≤ omwAdjustmentFor q 0 ∧ omwAdjustmentFor q 0 ≤ 10 := by
  unfold omwAdjustmentFor
  norm_num
  split_ifs <;> omega

theorem adjusted_neg2_mem (q : ℚ) :
    17 ≤ adjustedProbFor (some q) (-2) ∧ adjustedProbFor (some q) (-2) ≤ 30 := by
  have hb : baseProbFor (-2) = 25 := by decide
  have ha := omwAdjustmentFor_neg2_mem q
  simp only [adjustedProbFor]
  rw [if_pos (by norm_num), hb]
  omega

theorem adjusted_neg1_mem (q : ℚ) :
    40 ≤ adjustedProbFor (some q) (-1) ∧ adjustedProbFor (some q) (-1) ≤ 60 := by
  have hb : baseProbFor (-1) = 50 := by decide
  have ha := omwAdjustmentFor_neg1_mem q
  simp only [adjustedProbFor]
  rw [if_pos (by norm_num), hb]
  omega

theorem adjusted_zero_mem (q : ℚ) :
    60 ≤ adjustedProbFor (some q) 0 ∧ adjustedProbFor (some q) 0 ≤ 85 := by
  have hb : baseProbFor 0 = 75 := by decide
  have ha := omwAdjustmentFor_zero_mem q
  simp only [adjustedProbFor]
  rw [if_pos (by norm_num), hb]
  omega

theorem adjusted_outside (o : Option ℚ) (d : ℤ) (h : d < -2 ∨ 0 < d) :
    adjustedProbFor o d = baseProbFor d := by
  rcases o with _ | q
  · rfl
  · simp only [adjustedProbFor]
    rw [if_neg (by omega)]

theorem adjustedProbFor_step (o : Option ℚ) (d : ℤ) :
    adjustedProbFor o d ≤ adjustedProbFor o (d + 1) := by
  rcases o with _ | q
  · exact baseProbFor_step d
  · rcases lt_or_le d (-3) with h | h
    · rw [adjusted_outside (some q) d (by omega), adjusted_outside (some q) (d + 1) (by omega)]
      exact baseProbFor_step d
    · rcases lt_or_le 0 d with h1 | h1
      · rw [adjusted_outside (some q) d (by omega), adjusted_outside (some q) (d + 1) (by omega)]
        exact baseProbFor_step d
      · interval_cases d
        · norm_num
          rw [adjusted_outside (some q) (-3) (by omega)]
          have hb : baseProbFor (-3) = 10 := by decide
          have h2 := adjusted_neg2_mem q
          rw [hb]
          omega
        · norm_num
          have h2 := adjusted_neg2_mem q
          have h1' := adjusted_neg1_mem q
          omega
        · norm_num
          have h1' := adjusted_neg1_mem q
          have h0 := adjusted_zero_mem q
          omega
        · norm_num
          have h0 := adjusted_zero_mem q
          rw [adjusted_outside (some q) 1 (by omega)]
          have hb : baseProbFor 1 = 92 := by decide
          rw [hb]
          omega

/-- C7: for fixed losses, draws, totalRounds, numPlayers and any OMW
estimate (present or absent), `estimateTop8Probability` is monotonically
non-decreasing in wins. -/
theorem top8_monotone_in_wins
    (wins losses draws totalRounds numPlayers : ℕ) (o : Option ℚ) :
    estimateTop8Probability wins losses draws totalRounds numPlayers o ≤
      estimateTop8Probability (wins + 1) losses draws totalRounds numPlayers o := by
  unfold estimateTop8Probability
  by_cases h8 : numPlayers ≤ 8
  · simp [h8]
  · simp only [h8, if_false]
    have hpts : (getMatchPoints (wins + 1) draws : ℤ) -
        thresholdPointsFor numPlayers totalRounds =
        ((getMatchPoints wins draws : ℤ) -
          thresholdPointsFor numPlayers totalRounds) + 1 + 1 + 1 := by
      unfold getMatchPoints
      push_cast
      ring
    rw [hpts]
    exact le_trans (adjustedProbFor_step o _)
      (le_trans (adjustedProbFor_step o _) (adjustedProbFor_step o _))

/-! ### C2: the scenario enumerator -/

theorem sum_range_map_add_one (n : ℕ) :
    2 * ((List.range n).map (fun i => i + 1)).sum = n * (n + 1) := by
  induction n with
  | zero => rfl
  | succ k ih =>
    rw [List.range_succ, List.map_append, List.sum_append]
    simp only [List.map_cons, List.map_nil, List.sum_cons, List.sum_nil]
    rw [Nat.mul_add, ih]
    ring

theorem generateScenarios_length (remaining : ℕ) :
    (generateScenarios remaining).length = (remaining + 1) * (remaining + 2) / 2 := by
  have h1 : (generateScenarios remaining).length
      = ((List.range (remaining + 1)).map (fun i => i + 1)).sum := by
    unfold generateScenarios
    rw [List.length_flatMap]
    congr 1
    apply List.map_congr_left
    intro i _
    simp
  have h2 : 2 * ((List.range (remaining + 1)).map (fun i => i + 1)).sum
      = (remaining + 1) * (remaining + 2) := sum_range_map_add_one (remaining + 1)
  omega

theorem generateScenarios_sum (remaining : ℕ) :
    ∀ s ∈ generateScenarios remaining,
      s.extraWins + s.extraLosses + s.extraDraws = remaining := by
  intro s hs
  unfold generateScenarios at hs
  rw [List.mem_flatMap] at hs
  obtain ⟨i, hi, hs⟩ := hs
  rw [List.mem_range] at hi
  rw [List.mem_map] at hs
  obtain ⟨j, hj, rfl⟩ := hs
  rw [List.mem_range] at hj
  show (remaining - i) + j + (i - j) = remaining
  omega

theorem generateScenarios_pairwise (remaining : ℕ) :
    (generateScenarios remaining).Pairwise scenLexGt := by
  unfold generateScenarios
  rw [List.pairwise_flatMap]
  constructor
  · intro i hi
    rw [List.pairwise_map, List.pairwise_iff_getElem]
    intro a b ha hb hab
    rw [List.length_range] at ha hb
    rw [List.getElem_range, List.getElem_range]
    refine Or.inr ⟨rfl, ?_⟩
    show i - b < i - a
    omega
  · rw [List.pairwise_iff_getElem]
    intro a b ha hb hab
    rw [List.length_range] at ha hb
    simp only [List.getElem_range]
    intro x hx y hy
    rw [List.mem_map] at hx hy
    obtain ⟨jx, hjx, rfl⟩ := hx
    obtain ⟨jy, hjy, rfl⟩ := hy
    left
    show remaining - b < remaining - a
    omega

theorem generateScenarios_nodup (remaining : ℕ) :
    (generateScenarios remaining).Nodup := by
  refine (generateScenarios_pairwise remaining).imp ?_
  intro a b h heq
  subst heq
  rcases h with h | ⟨_, h⟩ <;> exact absurd h (lt_irrefl _)

/-- C2: `generateScenarios remaining` returns exactly
`(remaining+1)(remaining+2)/2` triples; each sums to `remaining` (all
components are `ℕ`, hence non-negative); no triple repeats; and the order is
`extraWins` descending with `extraDraws` descending within equal
`extraWins`. -/
theorem generateScenarios_spec (remaining : ℕ) :
    (generateScenarios remaining).length = (remaining + 1) * (remaining + 2) / 2 ∧
    (∀ s ∈ generateScenarios remaining,
      s.extraWins + s.extraLosses + s.extraDraws = remaining) ∧
    (generateScenarios remaining).Nodup ∧
    (generateScenarios remaining).Pairwise scenLexGt :=
  ⟨generateScenarios_length remaining, generateScenarios_sum remaining,
   generateScenarios_nodup remaining, generateScenarios_pairwise remaining⟩

/-- Witness for C2 (the membership implication instantiated concretely):
`generateScenarios 3` has 10 entries and contains 1-1-1, which sums to 3. -/
theorem generateScenarios_spec_witness :
    (generateScenarios 3).length = (3 + 1) * (3 + 2) / 2 ∧
    (Scenario.mk 1 1 1).extraWins + (Scenario.mk 1 1 1).extraLosses +
      (Scenario.mk 1 1 1).extraDraws = 3 :=
  ⟨(generateScenarios_spec 3).1, (generateScenarios_spec 3).2.1 ⟨1, 1, 1⟩ (by decide)⟩

/-! ### C5: the Day 2 minimum-wins search -/

theorem searchFrom_found (p : ℕ → Bool) :
    ∀ left testW, (∃ w, testW ≤ w ∧ w < testW + left ∧ p w = true) →
    ∃ w : ℕ, searchFrom p testW left = (w : ℤ) ∧ testW ≤ w ∧ w < testW + left ∧
      p w = true ∧ ∀ v, testW ≤ v → v < w → p v = false := by
  intro left
  induction left with
  | zero =>
    intro testW ⟨w, hw1, hw2, _⟩
    omega
  | succ k ih =>
    intro testW hex
    by_cases hp : p testW
    · refine ⟨testW, ?_, le_refl _, by omega, hp, fun v hv1 hv2 => absurd hv1 (by omega)⟩
      show searchFrom p testW (k + 1) = (testW : ℤ)
      simp [searchFrom, hp]
    · have hex2 : ∃ w, testW + 1 ≤ w ∧ w < (testW + 1) + k ∧ p w = true := by
        obtain ⟨w, hw1, hw2, hw3⟩ := hex
        have : w ≠ testW := fun h => hp (h ▸ hw3)
        exact ⟨w, by omega, by omega, hw3⟩
      obtain ⟨w, hw0, hw1, hw2, hw3, hw4⟩ := ih (testW + 1) hex2
      refine ⟨w, ?_, by omega, by omega, hw3, ?_⟩
      · show searchFrom p testW (k + 1) = (w : ℤ)
        simp [searchFrom, hp, hw0]
      · intro v hv1 hv2
        rcases Nat.eq_or_lt_of_le hv1 with h | h
        · subst h
          exact Bool.eq_false_iff.mpr hp
        · exact hw4 v (by omega) hv2

/-- C5: whenever `currentPoints < threshold` (not already in) and
`currentPoints + remaining*3 ≥ threshold` (not mathematically eliminated),
the `day2.js` ascending search succeeds: it never returns the `-1` sentinel,
and its result is the smallest `w ≤ remaining` with
`currentPoints + w*3 + (remaining-w)*1 ≥ threshold`. -/
theorem day2_minWins_search_succeeds (currentPoints threshold remaining : ℕ)
    (h1 : currentPoints < threshold)
    (h2 : threshold ≤ currentPoints + remaining * 3) :
    ∃ w : ℕ, day2MinWinsNeeded currentPoints threshold remaining = (w : ℤ) ∧
      w ≤ remaining ∧
      threshold ≤ currentPoints + w * 3 + (remaining - w) * 1 ∧
      (∀ v < w, currentPoints + v * 3 + (remaining - v) * 1 < threshold) ∧
      day2MinWinsNeeded currentPoints threshold remaining ≠ -1 := by
  have hex : ∃ w, 0 ≤ w ∧ w < 0 + (remaining + 1) ∧
      decide (threshold ≤ currentPoints + w * 3 + (remaining - w) * 1) = true := by
    refine ⟨remaining, by omega, by omega, ?_⟩
    rw [decide_eq_true_eq]
    omega
  obtain ⟨w, hw0, _, hw1, hw2, hw3⟩ := searchFrom_found _ (remaining + 1) 0 hex
  rw [decide_eq_true_eq] at hw2
  have hd : day2MinWinsNeeded currentPoints threshold remaining
      = searchFrom (fun testW => decide (threshold ≤
          currentPoints + testW * 3 + (remaining - testW) * 1)) 0 (remaining + 1) := by
    unfold day2MinWinsNeeded
    rw [if_neg (by omega)]
  refine ⟨w, by rw [hd, hw0], by omega, hw2, ?_, by rw [hd, hw0]; omega⟩
  intro v hv
  have := hw3 v (by omega) hv
  rw [decide_eq_false_iff_not] at this
  omega

/-- Witness for C5: the spec's worked example — 9 rounds, threshold 19,
record 5-1-0 (15 points), 3 rounds remaining — yields `minWinsNeeded = 1`. -/
theorem day2_minWins_search_succeeds_witness :
    day2MinWinsNeeded 15 19 3 = 1 ∧ day2MinWinsNeeded 15 19 3 ≠ -1 := by
  obtain ⟨w, hw0, hw1, hw2, hw3, hw4⟩ :=
    day2_minWins_search_succeeds 15 19 3 (by decide) (by decide)
  have hw : w = 1 := by
    rcases Nat.lt_or_ge w 1 with h | h
    · interval_cases w <;> omega
    · rcases Nat.lt_or_ge w 2 with h' | h'
      · omega
      · have := hw3 1 (by omega)
        omega
  refine ⟨?_, hw4⟩
  rw [hw0, hw]
  rfl

/-! ### C4: the strategy verdict cascade -/

/-- C4: the strategy verdict is selected by a first-match-wins cascade on
`drawAllProb`, `minWinsNeeded`, and `winAllProb` (all computed with the same
OMW estimate): `drawAllProb ≥ 90` → safe to draw out; else `≥ 60` → likely
safe; else `0 < minWinsNeeded ≤ remaining` → must win at least that many;
else `winAllProb < 25` → elimination-likely; else must win, drawing
unsafe. -/
theorem strategy_verdict_cascade (cw cl cd totalRounds numPlayers : ℕ)
    (omw : Option ℚ) (remaining : ℕ) (hrem : 1 ≤ remaining) :
    (90 ≤ drawAllProbFor cw cl cd totalRounds numPlayers omw remaining →
      strategyVerdictFor cw cl cd totalRounds numPlayers omw remaining = .safeToDraw) ∧
    (drawAllProbFor cw cl cd totalRounds numPlayers omw remaining < 90 →
      60 ≤ drawAllProbFor cw cl cd totalRounds numPlayers omw remaining →
      strategyVerdictFor cw cl cd totalRounds numPlayers omw remaining = .likelySafe) ∧
    (drawAllProbFor cw cl cd totalRounds numPlayers omw remaining < 60 →
      0 < minWinsNeededTop8 cw cl cd totalRounds numPlayers omw remaining →
      minWinsNeededTop8 cw cl cd totalRounds numPlayers omw remaining ≤ (remaining : ℤ) →
      strategyVerdictFor cw cl cd totalRounds numPlayers omw remaining =
        .mustWinAtLeast (minWinsNeededTop8 cw cl cd totalRounds numPlayers omw remaining)) ∧
    (drawAllProbFor cw cl cd totalRounds numPlayers omw remaining < 60 →
      ¬(0 < minWinsNeededTop8 cw cl cd totalRounds numPlayers omw remaining ∧
        minWinsNeededTop8 cw cl cd totalRounds numPlayers omw remaining ≤ (remaining : ℤ)) →
      winAllProbFor cw cl cd totalRounds numPlayers omw remaining < 25 →
      strategyVerdictFor cw cl cd totalRounds numPlayers omw remaining =
        .eliminationLikely) ∧
    (drawAllProbFor cw cl cd totalRounds numPlayers omw remaining < 60 →
      ¬(0 < minWinsNeededTop8 cw cl cd totalRounds numPlayers omw remaining ∧
        minWinsNeededTop8 cw cl cd totalRounds numPlayers omw remaining ≤ (remaining : ℤ)) →
      25 ≤ winAllProbFor cw cl cd totalRounds numPlayers omw remaining →
      strategyVerdictFor cw cl cd totalRounds numPlayers omw remaining = .mustWinAll) := by
  refine ⟨?_, ?_, ?_, ?_, ?_⟩
  · intro h
    unfold strategyVerdictFor
    rw [if_pos h]
  · intro h1 h2
    unfold strategyVerdictFor
    rw [if_neg (by omega), if_pos h2]
  · intro h1 h2 h3
    unfold strategyVerdictFor
    rw [if_neg (by omega), if_neg (by omega), if_pos ⟨h2, h3⟩]
  · intro h1 h2 h3
    unfold strategyVerdictFor
    rw [if_neg (by omega), if_neg (by omega), if_neg h2, if_pos h3]
  · intro h1 h2 h3
    unfold strategyVerdictFor
    rw [if_neg (by omega), if_neg (by omega), if_neg h2, if_neg (by omega)]

/-- Witness for C4: at 3-0-1 with 1 round left in a 32-player, 5-round
event and no OMW estimate, drawing out gives 50% (< 60) and one more win
reaches 92% ≥ 75, so the verdict is "must win at least 1". -/
theorem strategy_verdict_cascade_witness :
    strategyVerdictFor 3 0 1 5 32 none 1 = .mustWinAtLeast 1 := by
  have h := (strategy_verdict_cascade 3 0 1 5 32 none 1 (by omega)).2.2.1
    (by decide) (by decide) (by decide)
  rw [h]
  decide

/-! ### C6, C8: the OMW% estimator -/

theorem clampOMW_mem (x : ℚ) : 33/100 ≤ clampOMW x ∧ clampOMW x ≤ 1 := by
  unfold clampOMW
  constructor
  · exact le_max_left _ _
  · apply max_le
    · norm_num
    · exact min_le_left _ _

theorem opponentMWs_mem (totalRounds : ℕ) :
    ∀ (l : List (Option RoundResult)) (cw cl : ℤ),
      ∀ x ∈ opponentMWs totalRounds cw cl l, 33/100 ≤ x ∧ x ≤ 1 := by
  intro l
  induction l with
  | nil => intro cw cl x hx; simp [opponentMWs] at hx
  | cons a rest ih =>
    intro cw cl x hx
    rcases a with _ | r
    · exact ih cw cl x hx
    · rcases r with _ | _ | _ <;>
        (simp only [opponentMWs, List.mem_cons] at hx
         rcases hx with rfl | hx
         · exact clampOMW_mem _
         · first
             | exact ih (cw + 1) cl x hx
             | exact ih cw (cl + 1) x hx
             | exact ih cw cl x hx)

theorem opponentMWs_ne_nil (totalRounds : ℕ) :
    ∀ (l : List (Option RoundResult)) (cw cl : ℤ),
      l.any (fun r => r.isSome) = true → opponentMWs totalRounds cw cl l ≠ [] := by
  intro l
  induction l with
  | nil => intro cw cl h; simp at h
  | cons a rest ih =>
    intro cw cl h
    rcases a with _ | r
    · simp only [List.any_cons, Option.isSome_none, Bool.false_or] at h
      exact ih cw cl h
    · rcases r with _ | _ | _ <;> simp [opponentMWs]

/-- C6: `estimateOMW` returns `null` on an empty or all-unplayed sequence;
on any sequence with at least one played round it returns the arithmetic
mean of the per-round clamped opponent estimates, a value in `[0.33, 1]`.
The hypothesis `0 < totalRounds` reflects the only use in the source
(`totalRounds = getRounds(numPlayers)` with `numPlayers ≥ 8`, so
`totalRounds ≥ 3`); at `totalRounds = 0` the JavaScript arithmetic degrades
to NaN, which the rational model does not represent. -/
theorem estimateOMW_null_or_in_range (results : List (Option RoundResult))
    (totalRounds : ℕ) (ht : 0 < totalRounds) :
    (results.all (fun r => r.isNone) = true → estimateOMW results totalRounds = none) ∧
    (results.any (fun r => r.isSome) = true →
      ∃ q : ℚ, estimateOMW results totalRounds = some q ∧ 33/100 ≤ q ∧ q ≤ 1 ∧
        q = (opponentMWs totalRounds 0 0 results).sum /
            ((opponentMWs totalRounds 0 0 results).length : ℚ)) := by
  constructor
  · intro hall
    unfold estimateOMW
    by_cases he : results.isEmpty
    · rw [if_pos he]
    · rw [if_neg he, if_pos ?_]
      rw [List.isEmpty_iff, List.filter_eq_nil_iff]
      intro a ha
      rw [List.all_eq_true] at hall
      have := hall a ha
      simp_all [Option.isNone_iff_eq_none]
  · intro hany
    have hne : results ≠ [] := by
      intro h
      subst h
      simp at hany
    have hfil : ¬(results.filter (fun r => r.isSome)).isEmpty = true := by
      rw [List.isEmpty_iff, List.filter_eq_nil_iff]
      intro h
      rw [List.any_eq_true] at hany
      obtain ⟨a, ha, has⟩ := hany
      exact h a ha has
    have hmws := opponentMWs_ne_nil totalRounds results 0 0 hany
    have hlen : 0 < (opponentMWs totalRounds 0 0 results).length :=
      List.length_pos.mpr hmws
    have hlenq : (0 : ℚ) < ((opponentMWs totalRounds 0 0 results).length : ℚ) := by
      exact_mod_cast hlen
    refine ⟨(opponentMWs totalRounds 0 0 results).sum /
        ((opponentMWs totalRounds 0 0 results).length : ℚ), ?_, ?_, ?_, rfl⟩
    · unfold estimateOMW
      rw [if_neg (by simpa [List.isEmpty_iff] using hne), if_neg hfil]
    · rw [le_div_iff₀ hlenq]
      have := List.card_nsmul_le_sum (opponentMWs totalRounds 0 0 results) (33/100 : ℚ)
        (fun x hx => (opponentMWs_mem totalRounds results 0 0 x hx).1)
      rw [nsmul_eq_mul] at this
      linarith
    · rw [div_le_one hlenq]
      have := List.sum_le_card_nsmul (opponentMWs totalRounds 0 0 results) (1 : ℚ)
        (fun x hx => (opponentMWs_mem totalRounds results 0 0 x hx).2)
      rw [nsmul_eq_mul] at this
      linarith

/-- Witness for C6: the spec's worked example `[W, W, L, null, null]` with
5 total rounds gives a defined estimate in range (it equals 44/75 ≈ 0.587). -/
theorem estimateOMW_null_or_in_range_witness :
    ∃ q : ℚ, estimateOMW [some .win, some .win, some .loss, none, none] 5 = some q ∧
      33/100 ≤ q ∧ q ≤ 1 ∧
      q = (opponentMWs 5 0 0 [some .win, some .win, some .loss, none, none]).sum /
          ((opponentMWs 5 0 0 [some .win, some .win, some .loss, none, none]).length : ℚ) :=
  (estimateOMW_null_or_in_range [some .win, some .win, some .loss, none, none] 5
    (by omega)).2 (by decide)

/-- Counterexample to C8 as stated: `[W, L, L, W]` and `[L, W, W, L]` with
`totalRounds = 4` contain the same numbers of wins, losses and draws in
different orders, yet `estimateOMW` returns the same value (1/2) for both:
the prefix penalties cancel exactly and no clamping occurs. -/
theorem estimateOMW_order_blind_counterexample :
    estimateOMW [some .win, some .loss, some .loss, some .win] 4 =
      estimateOMW [some .loss, some .win, some .win, some .loss] 4 ∧
    ([some .win, some .loss, some .loss, some .win] : List (Option RoundResult)) ≠
      [some .loss, some .win, some .win, some .loss] ∧
    ([some .win, some .loss, some .loss, some .win] : List (Option RoundResult)).count
        (some .win) =
      ([some .loss, some .win, some .win, some .loss] : List (Option RoundResult)).count
        (some .win) ∧
    ([some .win, some .loss, some .loss, some .win] : List (Option RoundResult)).count
        (some .loss) =
      ([some .loss, some .win, some .win, some .loss] : List (Option RoundResult)).count
        (some .loss) ∧
    ([some .win, some .loss, some .loss, some .win] : List (Option RoundResult)).count
        (some .draw) =
      ([some .loss, some .win, some .win, some .loss] : List (Option RoundResult)).count
        (some .draw) := by
  refine ⟨?_, by decide, by decide, by decide, by decide⟩
  norm_num [estimateOMW, opponentMWs, clampOMW, max_def, min_def]

/-- C8 amended: `estimateOMW` is order-sensitive — there exist sequences
with identical win/loss/draw counts in different orders that yield different
OMW% values (`[W, L]` vs `[L, W]` at `totalRounds = 2` give 5/8 vs 87/200) —
though not every reordering changes the value. -/
theorem estimateOMW_order_sensitive :
    estimateOMW [some .win, some .loss] 2 ≠ estimateOMW [some .loss, some .win] 2 ∧
    ([some .win, some .loss] : List (Option RoundResult)).count (some .win) =
      ([some .loss, some .win] : List (Option RoundResult)).count (some .win) ∧
    ([some .win, some .loss] : List (Option RoundResult)).count (some .loss) =
      ([some .loss, some .win] : List (Option RoundResult)).count (some .loss) ∧
    ([some .win, some .loss] : List (Option RoundResult)).count (some .draw) =
      ([some .loss, some .win] : List (Option RoundResult)).count (some .draw) := by
  refine ⟨?_, by decide, by decide, by decide⟩
  norm_num [estimateOMW, opponentMWs, clampOMW, max_def, min_def]

/-! ### C9: the round tracker contiguous-prefix invariant -/

theorem allNone_contiguous (rs : List (Option RoundResult))
    (h : rs.all (fun r => r.isNone) = true) : contiguousPlayed rs = true := by
  cases rs with
  | nil => rfl
  | cons a rest =>
    rcases a with _ | r
    · show rest.all (fun r => r.isNone) = true
      simp only [List.all_cons, Bool.and_eq_true] at h
      exact h.2
    · simp [List.all_cons] at h

theorem allNone_getD (rs : List (Option RoundResult))
    (h : rs.all (fun r => r.isNone) = true) (i : ℕ) : rs.getD i none = none := by
  induction rs generalizing i with
  | nil => simp [List.getD]
  | cons a rest ih =>
    simp only [List.all_cons, Bool.and_eq_true] at h
    cases i with
    | zero =>
      rcases a with _ | r
      · rfl
      · simp at h
    | succ j => exact ih h.2 j

theorem clearRoundsFrom_allNone (rs : List (Option RoundResult)) :
    ∀ r, rs.all (fun x => x.isNone) = true →
      (clearRoundsFrom rs r).all (fun x => x.isNone) = true := by
  induction rs with
  | nil => intro r _; rfl
  | cons a rest ih =>
    intro r h
    simp only [List.all_cons, Bool.and_eq_true] at h
    cases r with
    | zero =>
      show (none :: clearRoundsFrom rest 0).all (fun x => x.isNone) = true
      simp only [List.all_cons, Bool.and_eq_true]
      exact ⟨rfl, ih 0 h.2⟩
    | succ r' =>
      show (a :: clearRoundsFrom rest r').all (fun x => x.isNone) = true
      simp only [List.all_cons, Bool.and_eq_true]
      exact ⟨h.1, ih r' h.2⟩

theorem clearRoundsFrom_zero_allNone (rs : List (Option RoundResult)) :
    (clearRoundsFrom rs 0).all (fun x => x.isNone) = true := by
  induction rs with
  | nil => rfl
  | cons a rest ih =>
    show (none :: clearRoundsFrom rest 0).all (fun x => x.isNone) = true
    simp only [List.all_cons, Bool.and_eq_true]
    exact ⟨rfl, ih⟩

theorem clearRoundsFrom_contiguous (rs : List (Option RoundResult)) :
    ∀ r, contiguousPlayed rs = true → contiguousPlayed (clearRoundsFrom rs r) = true := by
  induction rs with
  | nil => intro r _; rfl
  | cons a rest ih =>
    intro r h
    cases r with
    | zero =>
      show contiguousPlayed (none :: clearRoundsFrom rest 0) = true
      show (clearRoundsFrom rest 0).all (fun x => x.isNone) = true
      exact clearRoundsFrom_zero_allNone rest
    | succ r' =>
      rcases a with _ | x
      · show contiguousPlayed (none :: clearRoundsFrom rest r') = true
        show (clearRoundsFrom rest r').all (fun x => x.isNone) = true
        exact clearRoundsFrom_allNone rest r' h
      · show contiguousPlayed (some x :: clearRoundsFrom rest r') = true
        show contiguousPlayed (clearRoundsFrom rest r') = true
        exact ih r' h

theorem setRoundResult_contiguous (rs : List (Option RoundResult)) :
    ∀ r result, contiguousPlayed rs = true → roundEnabled rs r = true →
      contiguousPlayed (setRoundResult rs r result) = true := by
  induction rs with
  | nil => intro r result _ _; simp [setRoundResult, contiguousPlayed]
  | cons a rest ih =>
    intro r result hinv hen
    cases r with
    | zero =>
      show contiguousPlayed (some result :: rest) = true
      show contiguousPlayed rest = true
      rcases a with _ | x
      · exact allNone_contiguous rest hinv
      · exact hinv
    | succ r' =>
      rcases a with _ | x
      · -- head unplayed: the invariant makes the tail all-unplayed, so the
        -- sequential-enable check cannot pass for any later round
        exfalso
        have hrest : rest.all (fun x => x.isNone) = true := hinv
        simp only [roundEnabled, Bool.or_eq_true, beq_iff_eq] at hen
        rcases hen with (hen | hen) | hen
        · omega
        · cases r' with
          | zero => simp at hen
          | succ k =>
            have : rest.getD k none = none := allNone_getD rest hrest k
            simp only [Nat.succ_sub_one] at hen
            rw [List.getD_cons_succ] at hen
            rw [this] at hen
            simp at hen
        · have : rest.getD r' none = none := allNone_getD rest hrest r'
          rw [List.getD_cons_succ] at hen
          rw [this] at hen
          simp at hen
      · show contiguousPlayed (some x :: rest.set r' (some result)) = true
        show contiguousPlayed (rest.set r' (some result)) = true
        apply ih r' result hinv
        simp only [roundEnabled, Bool.or_eq_true, beq_iff_eq] at hen ⊢
        rcases hen with (hen | hen) | hen
        · omega
        · cases r' with
          | zero => left; left; rfl
          | succ k =>
            simp only [Nat.succ_sub_one] at hen
            rw [List.getD_cons_succ] at hen
            left
            right
            simpa using hen
        · rw [List.getD_cons_succ] at hen
          right
          exact hen

/-- C9: starting from any tracker state whose played results form a
contiguous prefix, both mutations — setting round `r` via an (enabled)
round button, and clearing round `r` together with all subsequent rounds —
leave the results a contiguous prefix of played rounds with no gaps. -/
theorem roundTracker_mutations_preserve_contiguous
    (rs : List (Option RoundResult)) (r : ℕ) (result : RoundResult)
    (hinv : contiguousPlayed rs = true) :
    (roundEnabled rs r = true →
      contiguousPlayed (setRoundResult rs r result) = true) ∧
    contiguousPlayed (clearRoundsFrom rs r) = true :=
  ⟨fun hen => setRoundResult_contiguous rs r result hinv hen,
   clearRoundsFrom_contiguous rs r hinv⟩

/-- Witness for C9: from state `[W, null, null]`, setting round 2 (enabled,
since round 1 is played) and clearing from round 2 both preserve the
contiguous-prefix invariant. -/
theorem roundTracker_mutations_preserve_contiguous_witness :
    contiguousPlayed (setRoundResult [some .win, none, none] 1 .loss) = true ∧
    contiguousPlayed (clearRoundsFrom [some .win, none, none] 1) = true := by
  have h := roundTracker_mutations_preserve_contiguous
    [some .win, none, none] 1 .loss (by decide)
  exact ⟨h.1 (by decide), h.2⟩
